import Mathlib

/-!
WhiteBoard: the text-annotation widget of `src/App.js`.

A shallow embedding of the React component `App`: its state variables become
the fields of `Session`, each handler becomes a function on `Session`, and the
things the component reads from the browser (the canvas element behind
`canvasRef`, the 2d-context text measurement, `Date.now()`, pointer events)
are explicit arguments.

Pixel quantities (`x`, `y`, `fontSize`, pointer coordinates, canvas sizes,
measured widths) are integers, so `Math.max`, `Math.min` and `-` are the
integer operations.  A JavaScript exception is the `error` case of `Except`.
-/

namespace WhiteBoard

/-! ## Data model -/

/-- The object literal built in `addText` (App.js lines 18-27). -/
structure TextItem where
  id : Nat
  text : String
  x : Int
  y : Int
  fontSize : Int
  fontWeight : String
  fontStyle : String
  textDecoration : String
deriving DecidableEq, Repr

/-- The `useState` variables of `App` (App.js lines 5-12). -/
structure Session where
  textItems : List TextItem
  currentText : String
  currentFontSize : Int
  isBold : Bool
  isItalic : Bool
  isUnderline : Bool
  history : List (List TextItem)
  redoHistory : List (List TextItem)
deriving DecidableEq, Repr

/-- The initial values passed to `useState` (App.js lines 5-12). -/
def initial : Session :=
  { textItems := []
    currentText := ""
    currentFontSize := 16
    isBold := false
    isItalic := false
    isUnderline := false
    history := []
    redoHistory := [] }

/-- The DOM element behind `canvasRef.current`, with the four properties
`moveText` reads. -/
structure Canvas where
  offsetLeft : Int
  offsetTop : Int
  clientWidth : Int
  clientHeight : Int
deriving DecidableEq, Repr

/-- What the component reads from the browser: `canvasRef.current` (`none`
is `null`) and `context.measureText(text).width` for a given `context.font`. -/
structure Env where
  canvasRef : Option Canvas
  measureText : String → String → Int

/-- One entry of `event.touches`. -/
structure Touch where
  clientX : Int
  clientY : Int
deriving DecidableEq, Repr

/-- The fields of a mouse or touch event that `moveText` and
`handleMouseDown` read; `touches = none` is a mouse event (`event.touches`
is `undefined`). -/
structure PointerEvent where
  touches : Option (List Touch)
  clientX : Int
  clientY : Int
deriving DecidableEq, Repr

/-- A thrown JavaScript exception. -/
inductive JsError where
  | typeError
deriving DecidableEq, Repr

/-! ## String.prototype.trim -/

/-- White space and line terminators as removed by `String.prototype.trim`. -/
def jsIsWhiteSpace (c : Char) : Bool :=
  let n := c.toNat
  n == 0x09 || n == 0x0A || n == 0x0B || n == 0x0C || n == 0x0D || n == 0x20 ||
  n == 0xA0 || n == 0x1680 || (0x2000 ≤ n && n ≤ 0x200A) || n == 0x2028 ||
  n == 0x2029 || n == 0x202F || n == 0x205F || n == 0x3000 || n == 0xFEFF

/-- The method `String.prototype.trim`: white space removed from both ends. -/
def jsTrim (s : String) : String :=
  String.mk ((s.toList.dropWhile jsIsWhiteSpace).reverse.dropWhile jsIsWhiteSpace).reverse

/-! ## Handlers -/

/-- The handler `addText` (App.js lines 15-34); `now` is the value of `Date.now()`. -/
def addText (now : Nat) (s : Session) : Session :=
  if jsTrim s.currentText = "" then s
  else
    let newText : TextItem :=
      { id := now
        text := s.currentText
        x := 150
        y := 150
        fontSize := s.currentFontSize
        fontWeight := if s.isBold then "bold" else "normal"
        fontStyle := if s.isItalic then "italic" else "normal"
        textDecoration := if s.isUnderline then "underline" else "none" }
    let updatedTextItems := s.textItems ++ [newText]
    { s with
      textItems := updatedTextItems
      history := s.history ++ [updatedTextItems]
      redoHistory := []
      currentText := "" }

/-- The function `calculateTextWidth` (App.js lines 91-96); the argument is
`none` when `textItems.find` returned `undefined`, and reading
`item.fontWeight` then throws a `TypeError`. -/
def calculateTextWidth (env : Env) (item : Option TextItem) : Except JsError Int :=
  match item with
  | none => .error .typeError
  | some item =>
    .ok (env.measureText (item.fontWeight ++ " " ++ toString item.fontSize ++ "px Arial") item.text)

/-- The method `Array.prototype.map` with a callback that may throw: the
first exception aborts the whole map. -/
def mapExcept {α β ε : Type} (f : α → Except ε β) : List α → Except ε (List β)
  | [] => .ok []
  | a :: l =>
    match f a with
    | .error e => .error e
    | .ok b =>
      match mapExcept f l with
      | .error e => .error e
      | .ok bs => .ok (b :: bs)

/-- The expression `event.touches ? event.touches[0].clientX : event.clientX`
(App.js line 40): a `TouchList` is truthy even when empty, and reading
`clientX` of a missing first entry throws. -/
def pointerClientX (event : PointerEvent) : Except JsError Int :=
  match event.touches with
  | some touches =>
    match touches[0]? with
    | some t => .ok t.clientX
    | none => .error .typeError
  | none => .ok event.clientX

/-- The expression `event.touches ? event.touches[0].clientY : event.clientY`
(App.js line 41). -/
def pointerClientY (event : PointerEvent) : Except JsError Int :=
  match event.touches with
  | some touches =>
    match touches[0]? with
    | some t => .ok t.clientY
    | none => .error .typeError
  | none => .ok event.clientY

/-- The callback of `textItems.map` in `moveText` (App.js lines 49-58);
`canvasRef.current.clientWidth` throws when `canvasRef.current` is `null`. -/
def moveItem (env : Env) (id : Nat) (newX newY textWidth : Int) (item : TextItem) :
    Except JsError TextItem :=
  if item.id = id then
    match env.canvasRef with
    | none => .error .typeError
    | some canvas =>
      .ok { item with
            x := max 0 (min newX (canvas.clientWidth - textWidth))
            y := max 0 (min newY (canvas.clientHeight - item.fontSize)) }
  else .ok item

/-- The handler `moveText` (App.js lines 36-63).  It is a closure of one
render of `App`: `r` is the state of that render, from which it reads
`textItems` and `history`; `s` is the state on which the three setters act
when the call happens.  A call from the current render has `r = s`. -/
def moveText (env : Env) (r : Session) (event : PointerEvent) (id : Nat) (s : Session) :
    Except JsError Session := do
  let offsetLeft : Int := match env.canvasRef with
    | some canvas => canvas.offsetLeft
    | none => 0
  let offsetTop : Int := match env.canvasRef with
    | some canvas => canvas.offsetTop
    | none => 0
  let clientX ← pointerClientX event
  let clientY ← pointerClientY event
  let newX := clientX - offsetLeft
  let newY := clientY - offsetTop
  let textItem := r.textItems.find? (fun item => item.id == id)
  let textWidth ← calculateTextWidth env textItem
  let updatedItems ← mapExcept (moveItem env id newX newY textWidth) r.textItems
  pure { s with
         textItems := updatedItems
         history := r.history ++ [updatedItems]
         redoHistory := [] }

/-- The handler `handleMouseDown` (App.js lines 65-89), as the listener it
registers on `document`: `onTouchMove` for a touch event, `onMouseMove`
otherwise.  Both call the `moveText` of the render `r` in which the
pointer-down was handled. -/
def handleMouseDown (env : Env) (r : Session) (id : Nat) (event : PointerEvent) :
    PointerEvent → Session → Except JsError Session :=
  let onMouseMove := fun (e : PointerEvent) => moveText env r e id
  let onTouchMove := fun (e : PointerEvent) => moveText env r e id
  if event.touches.isSome then onTouchMove else onMouseMove

/-- The handler `undo` (App.js lines 98-105). -/
def undo (s : Session) : Session :=
  if s.history.length = 0 then s
  else
    let lastState := s.history.getD (s.history.length - 1) []
    let newHistory := s.history.take (s.history.length - 1)
    { s with
      redoHistory := lastState :: s.redoHistory
      textItems := (newHistory[newHistory.length - 1]?).getD []
      history := newHistory }

/-- The handler `redo` (App.js lines 107-114). -/
def redo (s : Session) : Session :=
  if s.redoHistory.length = 0 then s
  else
    let nextState := s.redoHistory.getD 0 []
    let newRedoHistory := s.redoHistory.drop 1
    { s with
      textItems := nextState
      history := s.history ++ [nextState]
      redoHistory := newRedoHistory }

/-- The handler `toggleBold` (App.js line 116). -/
def toggleBold (s : Session) : Session := { s with isBold := !s.isBold }

/-- The handler `toggleItalic` (App.js line 117). -/
def toggleItalic (s : Session) : Session := { s with isItalic := !s.isItalic }

/-- The handler `toggleUnderline` (App.js line 118). -/
def toggleUnderline (s : Session) : Session := { s with isUnderline := !s.isUnderline }

/-- The handler `increaseFontSize` (App.js line 120). -/
def increaseFontSize (s : Session) : Session :=
  { s with currentFontSize := s.currentFontSize + 1 }

/-- The handler `decreaseFontSize` (App.js line 121). -/
def decreaseFontSize (s : Session) : Session :=
  { s with currentFontSize := max 1 (s.currentFontSize - 1) }

/-- The `onChange` of the text input (App.js line 156). -/
def setCurrentText (value : String) (s : Session) : Session :=
  { s with currentText := value }

/-! ## Sessions -/

/-- An event listener run by the browser: an exception thrown by the
listener is reported and no setter has been called, so the state is kept. -/
def deliver (listener : Session → Except JsError Session) (s : Session) : Session :=
  match listener s with
  | .ok t => t
  | .error _ => s

/-- A drag gesture: pointer-down on item `id` in state `s`, then the events
`moves` delivered one after the other to the listener registered by
`handleMouseDown`, then pointer-up (which only removes the listeners). -/
def dragGesture (env : Env) (id : Nat) (down : PointerEvent) (moves : List PointerEvent)
    (s : Session) : Session :=
  moves.foldl (fun st e => deliver (handleMouseDown env s id down e) st) s

/-- What a user can do to the component. -/
inductive Action where
  | setCurrentText (value : String)
  | addText (now : Nat)
  | moveText (event : PointerEvent) (id : Nat)
  | drag (id : Nat) (down : PointerEvent) (moves : List PointerEvent)
  | undo
  | redo
  | toggleBold
  | toggleItalic
  | toggleUnderline
  | increaseFontSize
  | decreaseFontSize
deriving DecidableEq, Repr

/-- One action applied to a state. -/
def step (env : Env) (s : Session) : Action → Session
  | .setCurrentText value => setCurrentText value s
  | .addText now => addText now s
  | .moveText event id => deliver (moveText env s event id) s
  | .drag id down moves => dragGesture env id down moves s
  | .undo => undo s
  | .redo => redo s
  | .toggleBold => toggleBold s
  | .toggleItalic => toggleItalic s
  | .toggleUnderline => toggleUnderline s
  | .increaseFontSize => increaseFontSize s
  | .decreaseFontSize => decreaseFontSize s

/-- A sequence of actions applied from left to right. -/
def run (env : Env) (actions : List Action) (s : Session) : Session :=
  actions.foldl (step env) s

/-- The states a session can be in: those obtained from `initial` by some
sequence of actions. -/
def Reachable (env : Env) (s : Session) : Prop :=
  ∃ actions : List Action, run env actions initial = s

/-! ## Vocabulary of the properties -/

/-- The width `calculateTextWidth` returns for an item that exists. -/
def renderedWidth (env : Env) (item : TextItem) : Int :=
  env.measureText (item.fontWeight ++ " " ++ toString item.fontSize ++ "px Arial") item.text

/-- The value the callback of `textItems.map` in `moveText` returns when
`canvasRef.current` is the element `canvas`. -/
def movedItem (canvas : Canvas) (id : Nat) (newX newY textWidth : Int) (item : TextItem) :
    TextItem :=
  if item.id = id then
    { item with
      x := max 0 (min newX (canvas.clientWidth - textWidth))
      y := max 0 (min newY (canvas.clientHeight - item.fontSize)) }
  else item

/-- The live Document is the last snapshot of the undo stack, or empty when
the undo stack is empty. -/
def LiveIsLast (s : Session) : Prop :=
  s.textItems = s.history.getLast?.getD []

/-- A mouse event at client position `(x, y)`. -/
def mouseAt (x y : Int) : PointerEvent :=
  { touches := none, clientX := x, clientY := y }

/-- A 300x200 canvas at page origin. -/
def exampleCanvas : Canvas :=
  { offsetLeft := 0, offsetTop := 0, clientWidth := 300, clientHeight := 200 }

/-- A browser whose canvas is `exampleCanvas` and in which every text
measures 50 pixels. -/
def exampleEnv : Env :=
  { canvasRef := some exampleCanvas, measureText := fun _ _ => 50 }

/-- The session after typing "A" and pressing "Add text" at time 1. -/
def oneItem : Session :=
  run exampleEnv [.setCurrentText "A", .addText 1] initial

/-- A 40x10 canvas at page origin: narrower than the 50 pixels every text
measures in `narrowEnv`, and lower than the default font size 16. -/
def narrowCanvas : Canvas :=
  { offsetLeft := 0, offsetTop := 0, clientWidth := 40, clientHeight := 10 }

/-- A browser whose canvas is `narrowCanvas` and in which every text
measures 50 pixels. -/
def narrowEnv : Env :=
  { canvasRef := some narrowCanvas, measureText := fun _ _ => 50 }

/-- The range the specification gives for a stored position:
`0 <= x <= canvasWidth - textWidth` and `0 <= y <= canvasHeight - fontSize`. -/
def WithinCanvas (canvas : Canvas) (textWidth : Int) (item : TextItem) : Prop :=
  0 ≤ item.x ∧ item.x ≤ canvas.clientWidth - textWidth ∧
    0 ≤ item.y ∧ item.y ≤ canvas.clientHeight - item.fontSize

instance (canvas : Canvas) (textWidth : Int) (item : TextItem) :
    Decidable (WithinCanvas canvas textWidth item) := by
  unfold WithinCanvas
  infer_instance

/-- The range the clamp of `moveText` guarantees: the upper bounds of
`WithinCanvas`, floored at 0. -/
def Clamped (canvas : Canvas) (textWidth : Int) (item : TextItem) : Prop :=
  0 ≤ item.x ∧ item.x ≤ max 0 (canvas.clientWidth - textWidth) ∧
    0 ≤ item.y ∧ item.y ≤ max 0 (canvas.clientHeight - item.fontSize)

instance (canvas : Canvas) (textWidth : Int) (item : TextItem) :
    Decidable (Clamped canvas textWidth item) := by
  unfold Clamped
  infer_instance

/-- An item of the Document `doc` is where a handler puts one: at the
default position `(150, 150)` of `addText`, or at a position clamped by
`moveText` with the width measured for the item that `find` returns for its
id (the item itself when ids are distinct). -/
def Placed (env : Env) (canvas : Canvas) (doc : List TextItem) (item : TextItem) : Prop :=
  (item.x = 150 ∧ item.y = 150) ∨
    ∃ j, doc.find? (fun i => i.id == item.id) = some j ∧
      Clamped canvas (renderedWidth env j) item

/-- Every item of a Document is `Placed`. -/
def DocPlaced (env : Env) (canvas : Canvas) (doc : List TextItem) : Prop :=
  ∀ item ∈ doc, Placed env canvas doc item

/-- The live Document and every snapshot of both stacks are `DocPlaced`. -/
def AllPlaced (env : Env) (canvas : Canvas) (s : Session) : Prop :=
  DocPlaced env canvas s.textItems ∧ (∀ d ∈ s.history, DocPlaced env canvas d) ∧
    ∀ d ∈ s.redoHistory, DocPlaced env canvas d

/-- The item `addText` builds in state `s` when `Date.now()` is `now`. -/
def newTextOf (now : Nat) (s : Session) : TextItem :=
  { id := now
    text := s.currentText
    x := 150
    y := 150
    fontSize := s.currentFontSize
    fontWeight := if s.isBold then "bold" else "normal"
    fontStyle := if s.isItalic then "italic" else "normal"
    textDecoration := if s.isUnderline then "underline" else "none" }

/-- Every item of a Document has a font size of at least 1. -/
def DocFontPositive (doc : List TextItem) : Prop :=
  ∀ item ∈ doc, 1 ≤ item.fontSize

/-- The active font size is at least 1, and so is the font size of every
item of the live Document and of every snapshot of both stacks. -/
def FontSizesPositive (s : Session) : Prop :=
  1 ≤ s.currentFontSize ∧ DocFontPositive s.textItems ∧
    (∀ d ∈ s.history, DocFontPositive d) ∧ ∀ d ∈ s.redoHistory, DocFontPositive d

/-- Two items differ at most in their position: `id`, `text`, `fontSize`,
`fontWeight`, `fontStyle` and `textDecoration` agree. -/
def SameButPosition (a b : TextItem) : Prop :=
  b.id = a.id ∧ b.text = a.text ∧ b.fontSize = a.fontSize ∧ b.fontWeight = a.fontWeight ∧
    b.fontStyle = a.fontStyle ∧ b.textDecoration = a.textDecoration

/-! ## Lemmas on the handlers -/

theorem mapExcept_ok_map {α β ε : Type} (f : α → Except ε β) (g : α → β)
    (l : List α) (h : ∀ a ∈ l, f a = .ok (g a)) : mapExcept f l = .ok (l.map g) := by
  induction l with
  | nil => rfl
  | cons a l ih =>
    have ha := h a (List.mem_cons_self a l)
    have hl := ih (fun b hb => h b (List.mem_cons_of_mem a hb))
    simp [mapExcept, ha, hl]

theorem mapExcept_error_of_mem {α β ε : Type} (f : α → Except ε β) (e : ε)
    (herr : ∀ a e1, f a = .error e1 → e1 = e)
    (l : List α) (h : ∃ a ∈ l, f a = .error e) : mapExcept f l = .error e := by
  induction l with
  | nil => simp at h
  | cons a l ih =>
    cases hfa : f a with
    | error e1 => simp [mapExcept, hfa, herr a e1 hfa]
    | ok b =>
      obtain ⟨x, hx, hfx⟩ := h
      rcases List.mem_cons.mp hx with rfl | hxl
      · rw [hfa] at hfx; cases hfx
      · have := ih ⟨x, hxl, hfx⟩
        simp [mapExcept, hfa, this]

theorem moveItem_canvas (env : Env) (canvas : Canvas) (h : env.canvasRef = some canvas)
    (id : Nat) (newX newY textWidth : Int) (item : TextItem) :
    moveItem env id newX newY textWidth item = .ok (movedItem canvas id newX newY textWidth item) := by
  unfold moveItem movedItem
  split <;> simp [h]

theorem moveText_ok (env : Env) (canvas : Canvas) (r s : Session) (event : PointerEvent)
    (id : Nat) (px py : Int) (j : TextItem)
    (hc : env.canvasRef = some canvas)
    (hx : pointerClientX event = .ok px) (hy : pointerClientY event = .ok py)
    (hj : r.textItems.find? (fun item => item.id == id) = some j) :
    moveText env r event id s = .ok
      { s with
        textItems := r.textItems.map (movedItem canvas id (px - canvas.offsetLeft)
          (py - canvas.offsetTop) (renderedWidth env j))
        history := r.history ++ [r.textItems.map (movedItem canvas id (px - canvas.offsetLeft)
          (py - canvas.offsetTop) (renderedWidth env j))]
        redoHistory := [] } := by
  have hm := mapExcept_ok_map (moveItem env id (px - canvas.offsetLeft) (py - canvas.offsetTop)
    (renderedWidth env j)) _ r.textItems (fun a _ => moveItem_canvas env canvas hc id _ _ _ a)
  simp only [moveText, hx, hy, hj, hc, calculateTextWidth, bind, Except.bind, pure, Except.pure]
  simp only [renderedWidth] at hm
  rw [hm]
  rfl


theorem moveText_absent (env : Env) (r s : Session) (event : PointerEvent) (id : Nat)
    (h : ∀ item ∈ r.textItems, item.id ≠ id) :
    moveText env r event id s = .error .typeError := by
  have hfind : r.textItems.find? (fun item => item.id == id) = none := by
    rw [List.find?_eq_none]
    intro item hitem
    simpa using h item hitem
  cases hx : pointerClientX event with
  | error e => cases e; simp [moveText, hx, bind, Except.bind]
  | ok px =>
    cases hy : pointerClientY event with
    | error e => cases e; simp [moveText, hx, hy, bind, Except.bind]
    | ok py => simp [moveText, hx, hy, hfind, calculateTextWidth, bind, Except.bind]

theorem moveText_no_canvas (env : Env) (r s : Session) (event : PointerEvent) (id : Nat)
    (h : env.canvasRef = none) : moveText env r event id s = .error .typeError := by
  cases hm : moveText env r event id s with
  | error e => cases e; rfl
  | ok t =>
    exfalso
    cases hx : pointerClientX event with
    | error e => simp [moveText, hx, bind, Except.bind] at hm
    | ok px =>
      cases hy : pointerClientY event with
      | error e => simp [moveText, hx, hy, bind, Except.bind] at hm
      | ok py =>
        cases hj : r.textItems.find? (fun item => item.id == id) with
        | none => simp [moveText, hx, hy, hj, calculateTextWidth, bind, Except.bind] at hm
        | some j =>
          have hmem : j ∈ r.textItems := List.mem_of_find?_eq_some hj
          have hid : j.id = id := by simpa using List.find?_some hj
          have herr : mapExcept (moveItem env id (px - 0) (py - 0) (env.measureText
              (j.fontWeight ++ " " ++ toString j.fontSize ++ "px Arial") j.text)) r.textItems
              = .error .typeError := by
            apply mapExcept_error_of_mem
            · intro a e1 _; cases e1; rfl
            · exact ⟨j, hmem, by simp [moveItem, hid, h]⟩
          simp only [sub_zero] at herr
          simp [moveText, hx, hy, hj, h, calculateTextWidth, bind, Except.bind, herr] at hm

theorem moveText_inv (env : Env) (r s t : Session) (event : PointerEvent) (id : Nat)
    (h : moveText env r event id s = .ok t) :
    ∃ canvas px py j, env.canvasRef = some canvas ∧ pointerClientX event = .ok px ∧
      pointerClientY event = .ok py ∧
      r.textItems.find? (fun item => item.id == id) = some j ∧
      t = { s with
            textItems := r.textItems.map (movedItem canvas id (px - canvas.offsetLeft)
              (py - canvas.offsetTop) (renderedWidth env j))
            history := r.history ++ [r.textItems.map (movedItem canvas id
              (px - canvas.offsetLeft) (py - canvas.offsetTop) (renderedWidth env j))]
            redoHistory := [] } := by
  cases hc : env.canvasRef with
  | none => rw [moveText_no_canvas env r s event id hc] at h; cases h
  | some canvas =>
    cases hx : pointerClientX event with
    | error e => simp [moveText, hx, bind, Except.bind] at h
    | ok px =>
      cases hy : pointerClientY event with
      | error e => simp [moveText, hx, hy, bind, Except.bind] at h
      | ok py =>
        cases hj : r.textItems.find? (fun item => item.id == id) with
        | none => simp [moveText, hx, hy, hj, calculateTextWidth, bind, Except.bind] at h
        | some j =>
          rw [moveText_ok env canvas r s event id px py j hc hx hy hj] at h
          exact ⟨canvas, px, py, j, rfl, rfl, rfl, rfl, (Except.ok.inj h).symm⟩

theorem undo_concat (s : Session) (L : List (List TextItem)) (b : List TextItem)
    (h : s.history = L ++ [b]) :
    undo s = { s with
               redoHistory := b :: s.redoHistory
               textItems := L.getLast?.getD []
               history := L } := by
  unfold undo
  have hlen : s.history.length ≠ 0 := by simp [h]
  rw [if_neg hlen]
  simp [h, List.getLast?_eq_getElem?]

theorem redo_cons (s : Session) (b : List TextItem) (R : List (List TextItem))
    (h : s.redoHistory = b :: R) :
    redo s = { s with
               textItems := b
               history := s.history ++ [b]
               redoHistory := R } := by
  unfold redo
  simp [h]

theorem undo_nil (s : Session) (h : s.history = []) : undo s = s := by
  simp [undo, h]

theorem redo_nil (s : Session) (h : s.redoHistory = []) : redo s = s := by
  simp [redo, h]

theorem nil_or_snoc {α : Type} (l : List α) : l = [] ∨ ∃ L b, l = L ++ [b] := by
  rcases List.eq_nil_or_concat l with h | ⟨L, b, h⟩
  · exact Or.inl h
  · exact Or.inr ⟨L, b, by rw [h, List.concat_eq_append]⟩

theorem handleMouseDown_eq (env : Env) (r : Session) (id : Nat) (down : PointerEvent) :
    handleMouseDown env r id down = fun e => moveText env r e id := by
  unfold handleMouseDown
  split <;> rfl

theorem liveIsLast_moveText (env : Env) (r s t : Session) (event : PointerEvent) (id : Nat)
    (h : moveText env r event id s = .ok t) : LiveIsLast t := by
  obtain ⟨canvas, px, py, j, -, -, -, -, rfl⟩ := moveText_inv env r s t event id h
  simp [LiveIsLast]

theorem liveIsLast_deliver (env : Env) (r s : Session) (event : PointerEvent) (id : Nat)
    (h : LiveIsLast s) : LiveIsLast (deliver (moveText env r event id) s) := by
  unfold deliver
  cases hm : moveText env r event id s with
  | error e => exact h
  | ok t => exact liveIsLast_moveText env r s t event id hm

theorem liveIsLast_drag (env : Env) (r : Session) (id : Nat) (down : PointerEvent)
    (moves : List PointerEvent) (s : Session) (h : LiveIsLast s) :
    LiveIsLast (moves.foldl (fun st e => deliver (handleMouseDown env r id down e) st) s) := by
  induction moves generalizing s with
  | nil => exact h
  | cons e moves ih =>
    rw [List.foldl_cons]
    apply ih
    rw [handleMouseDown_eq]
    exact liveIsLast_deliver env r s e id h

theorem liveIsLast_step (env : Env) (s : Session) (a : Action) (h : LiveIsLast s) :
    LiveIsLast (step env s a) := by
  cases a with
  | setCurrentText value => exact h
  | addText now =>
    simp only [step, addText]
    split
    · exact h
    · simp [LiveIsLast]
  | moveText event id => exact liveIsLast_deliver env s s event id h
  | drag id down moves => exact liveIsLast_drag env s id down moves s h
  | undo =>
    simp only [step]
    rcases nil_or_snoc s.history with hnil | ⟨L, b, hL⟩
    · rw [undo_nil s hnil]; exact h
    · rw [undo_concat s L b hL]; simp [LiveIsLast]
  | redo =>
    simp only [step]
    cases hR : s.redoHistory with
    | nil => rw [redo_nil s hR]; exact h
    | cons b R => rw [redo_cons s b R hR]; simp [LiveIsLast]
  | toggleBold => exact h
  | toggleItalic => exact h
  | toggleUnderline => exact h
  | increaseFontSize => exact h
  | decreaseFontSize => exact h

theorem liveIsLast_run (env : Env) (actions : List Action) (s : Session) (h : LiveIsLast s) :
    LiveIsLast (run env actions s) := by
  induction actions generalizing s with
  | nil => exact h
  | cons a actions ih => exact ih (step env s a) (liveIsLast_step env s a h)

theorem liveIsLast_of_reachable (env : Env) (s : Session) (h : Reachable env s) :
    LiveIsLast s := by
  obtain ⟨actions, rfl⟩ := h
  exact liveIsLast_run env actions initial rfl

/-- C1: in every state reachable from the initial state whose undo stack is
non-empty, `undo` followed by `redo` leaves the live Document exactly as it
was before the `undo`. -/
theorem redo_undo_restores_document (env : Env) (s : Session) (hr : Reachable env s)
    (hne : s.history ≠ []) : (redo (undo s)).textItems = s.textItems := by
  have hl := liveIsLast_of_reachable env s hr
  rcases nil_or_snoc s.history with hnil | ⟨L, b, hL⟩
  · exact absurd hnil hne
  · rw [undo_concat s L b hL, redo_cons _ b s.redoHistory rfl]
    simp [LiveIsLast, hL] at hl
    exact hl.symm

theorem redo_undo_restores_document_witness :
    Reachable exampleEnv oneItem ∧ oneItem.history ≠ [] ∧
      (redo (undo oneItem)).textItems = oneItem.textItems :=
  ⟨⟨_, rfl⟩, by decide,
    redo_undo_restores_document exampleEnv oneItem ⟨_, rfl⟩ (by decide)⟩

/-- C2: in every state reachable from the initial state the live Document
(`textItems`) is the last element of the undo stack (`history`), and it is
the empty Document when the undo stack is empty. -/
theorem reachable_live_is_last_snapshot (env : Env) (s : Session) (hr : Reachable env s) :
    (s.history = [] → s.textItems = []) ∧
      (∀ L b, s.history = L ++ [b] → s.textItems = b) := by
  have hl := liveIsLast_of_reachable env s hr
  constructor
  · intro h; simpa [LiveIsLast, h] using hl
  · intro L b h; simpa [LiveIsLast, h] using hl

theorem reachable_live_is_last_snapshot_witness :
    Reachable exampleEnv oneItem ∧ (oneItem.history = [] → oneItem.textItems = []) ∧
      (∀ L b, oneItem.history = L ++ [b] → oneItem.textItems = b) :=
  ⟨⟨_, rfl⟩, reachable_live_is_last_snapshot exampleEnv oneItem ⟨_, rfl⟩⟩

/-- C3 as stated fails: `moveText` called with an id that matches no item
raises an error.  With the one-item Document (id 1) and id 2 it throws a
`TypeError`, raised by `calculateTextWidth` on the `undefined` result of
`find`. -/
theorem moveText_unknown_id_throws :
    (∀ item ∈ oneItem.textItems, item.id ≠ 2) ∧
      moveText exampleEnv oneItem (mouseAt 10 10) 2 oneItem = .error .typeError :=
  ⟨by decide, rfl⟩

theorem movedItem_id (canvas : Canvas) (id : Nat) (newX newY w : Int) (item : TextItem) :
    (movedItem canvas id newX newY w item).id = item.id := by
  unfold movedItem; split <;> rfl

theorem movedItem_fontSize (canvas : Canvas) (id : Nat) (newX newY w : Int) (item : TextItem) :
    (movedItem canvas id newX newY w item).fontSize = item.fontSize := by
  unfold movedItem; split <;> rfl

theorem renderedWidth_movedItem (env : Env) (canvas : Canvas) (id : Nat) (newX newY w : Int)
    (item : TextItem) :
    renderedWidth env (movedItem canvas id newX newY w item) = renderedWidth env item := by
  unfold movedItem; split <;> rfl

theorem movedItem_clamped (canvas : Canvas) (id : Nat) (newX newY w : Int) (item : TextItem)
    (h : item.id = id) : Clamped canvas w (movedItem canvas id newX newY w item) := by
  simp only [movedItem, if_pos h, Clamped]
  omega

theorem find_of_exists (doc : List TextItem) (id : Nat) (h : ∃ item ∈ doc, item.id = id) :
    ∃ j, doc.find? (fun item => item.id == id) = some j := by
  cases hf : doc.find? (fun item => item.id == id) with
  | some j => exact ⟨j, rfl⟩
  | none =>
    obtain ⟨item, hmem, hid⟩ := h
    rw [List.find?_eq_none] at hf
    exact absurd (by simpa using hid) (hf item hmem)

theorem jsTrim_blank (t : String) (h : ∀ c ∈ t.toList, jsIsWhiteSpace c = true) :
    jsTrim t = "" := by
  have h1 : t.toList.dropWhile jsIsWhiteSpace = [] := by
    rw [List.dropWhile_eq_nil_iff]; exact h
  unfold jsTrim
  rw [h1]
  rfl

theorem deliver_moveText_history (env : Env) (r s : Session) (event : PointerEvent) (id : Nat)
    (h : s.history = r.history ∨ ∃ u, s.history = r.history ++ [u]) :
    (deliver (moveText env r event id) s).history = r.history ∨
      ∃ u, (deliver (moveText env r event id) s).history = r.history ++ [u] := by
  unfold deliver
  cases hm : moveText env r event id s with
  | error err => exact h
  | ok t =>
    obtain ⟨canvas, px, py, j, -, -, -, -, rfl⟩ := moveText_inv env r s t event id hm
    exact Or.inr ⟨_, rfl⟩

theorem drag_history (env : Env) (r : Session) (id : Nat) (down : PointerEvent)
    (moves : List PointerEvent) (s : Session)
    (h : s.history = r.history ∨ ∃ u, s.history = r.history ++ [u]) :
    (moves.foldl (fun st e => deliver (handleMouseDown env r id down e) st) s).history
        = r.history ∨
      ∃ u, (moves.foldl (fun st e => deliver (handleMouseDown env r id down e) st) s).history
        = r.history ++ [u] := by
  induction moves generalizing s with
  | nil => exact h
  | cons e moves ih =>
    rw [List.foldl_cons]
    apply ih
    rw [handleMouseDown_eq]
    exact deliver_moveText_history env r s e id h

/-- A drag gesture of any number of moves leaves the undo stack at most one
entry longer than it was at pointer-down. -/
theorem drag_history_length_le (env : Env) (id : Nat) (down : PointerEvent)
    (moves : List PointerEvent) (s : Session) :
    (dragGesture env id down moves s).history.length ≤ s.history.length + 1 := by
  rcases drag_history env s id down moves s (Or.inl rfl) with h | ⟨u, h⟩
  · unfold dragGesture; rw [h]; omega
  · unfold dragGesture; rw [h]; simp

/-- C4 as stated fails: on a canvas 40 wide and 10 high, where the text
measures 50 and the font size is 16, `moveText` with the pointer at
`(1000, 1000)` stores `(0, 0)`, above both upper bounds `40 - 50` and
`10 - 16`. -/
theorem moveText_exceeds_negative_bound :
    ¬ ∀ item ∈ (deliver (moveText narrowEnv oneItem (mouseAt 1000 1000) 1) oneItem).textItems,
        item.id = 1 → WithinCanvas narrowCanvas (renderedWidth narrowEnv item) item := by
  decide

/-- C4, amended: when `moveText` moves an existing item (`find` returns `j`,
whose measured width is the `textWidth`), the stored position satisfies
`0 <= x <= max(0, canvasWidth - textWidth)` and
`0 <= y <= max(0, canvasHeight - fontSize)`; the upper bounds
`canvasWidth - textWidth` and `canvasHeight - fontSize` hold whenever they are
not negative.  For a 300x200 canvas at offset `(0, 0)`, text width 50,
font size 16 and raw pointer `(1000, 1000)` the stored position is
`(250, 184)`. -/
theorem moveText_position_clamped (env : Env) (canvas : Canvas) (r s : Session)
    (event : PointerEvent) (id : Nat) (px py : Int) (j : TextItem)
    (hc : env.canvasRef = some canvas)
    (hx : pointerClientX event = .ok px) (hy : pointerClientY event = .ok py)
    (hj : r.textItems.find? (fun item => item.id == id) = some j) :
    ∃ t, moveText env r event id s = .ok t ∧
      (∀ item ∈ t.textItems, item.id = id →
        Clamped canvas (renderedWidth env j) item ∧
        (0 ≤ canvas.clientWidth - renderedWidth env j →
          item.x ≤ canvas.clientWidth - renderedWidth env j) ∧
        (0 ≤ canvas.clientHeight - item.fontSize →
          item.y ≤ canvas.clientHeight - item.fontSize)) ∧
      (canvas = { offsetLeft := 0, offsetTop := 0, clientWidth := 300, clientHeight := 200 } →
        renderedWidth env j = 50 → px = 1000 → py = 1000 →
        ∀ item ∈ t.textItems, item.id = id → item.fontSize = 16 →
          item.x = 250 ∧ item.y = 184) := by
  refine ⟨_, moveText_ok env canvas r s event id px py j hc hx hy hj, ?_, ?_⟩
  · intro item hitem hid
    obtain ⟨a, -, rfl⟩ := List.mem_map.mp hitem
    have ha : a.id = id := by rw [← movedItem_id canvas id _ _ _ a]; exact hid
    have hcl := movedItem_clamped canvas id (px - canvas.offsetLeft) (py - canvas.offsetTop)
      (renderedWidth env j) a ha
    refine ⟨hcl, ?_, ?_⟩
    · intro hw
      have := hcl.2.1
      omega
    · intro hh
      have := hcl.2.2.2
      omega
  · intro hcanvas hw hpx hpy item hitem hid hfs
    obtain ⟨a, -, rfl⟩ := List.mem_map.mp hitem
    have ha : a.id = id := by rw [← movedItem_id canvas id _ _ _ a]; exact hid
    rw [movedItem_fontSize] at hfs
    subst hcanvas hpx hpy
    simp only [movedItem, if_pos ha, hw, hfs]
    constructor <;> decide

theorem moveText_position_clamped_witness :
    ∃ t, moveText exampleEnv oneItem (mouseAt 1000 1000) 1 oneItem = .ok t ∧
      (∀ item ∈ t.textItems, item.id = 1 →
        Clamped exampleCanvas 50 item ∧
        (0 ≤ exampleCanvas.clientWidth - 50 → item.x ≤ exampleCanvas.clientWidth - 50) ∧
        (0 ≤ exampleCanvas.clientHeight - item.fontSize →
          item.y ≤ exampleCanvas.clientHeight - item.fontSize)) ∧
      (exampleCanvas = { offsetLeft := 0, offsetTop := 0, clientWidth := 300, clientHeight := 200 } →
        (50 : Int) = 50 → (1000 : Int) = 1000 → (1000 : Int) = 1000 →
        ∀ item ∈ t.textItems, item.id = 1 → item.fontSize = 16 →
          item.x = 250 ∧ item.y = 184) :=
  moveText_position_clamped exampleEnv exampleCanvas oneItem oneItem (mouseAt 1000 1000) 1
    1000 1000
    { id := 1, text := "A", x := 150, y := 150, fontSize := 16, fontWeight := "normal",
      fontStyle := "normal", textDecoration := "none" }
    rfl rfl rfl rfl

/-- C5: a drag gesture does not commit once per move.  After pointer-down on
the item of the one-item Document and two mouse moves, both of which move the
item (it ends at `(20, 20)`), the undo stack is one entry longer than before
the gesture, not two: the registered listener keeps the `moveText` of the
render at pointer-down, whose `history` is the stack of that render. -/
theorem drag_two_moves_commits_once :
    (dragGesture exampleEnv 1 (mouseAt 150 150) [mouseAt 10 10, mouseAt 20 20]
        oneItem).history.length = oneItem.history.length + 1 ∧
      (dragGesture exampleEnv 1 (mouseAt 150 150) [mouseAt 10 10, mouseAt 20 20]
        oneItem).textItems.map (fun item => (item.x, item.y)) = [(20, 20)] := by
  decide

/-- C6: after an `addText` with a non-blank draft, and after a `moveText` on
an existing item, the redo stack is empty and a `redo` issued next changes
nothing; the state before the action is arbitrary, so this holds in
particular when the action follows an `undo`. -/
theorem redo_is_noop_after_mutation (env : Env) (canvas : Canvas) (r s : Session) (now : Nat)
    (event : PointerEvent) (id : Nat) (px py : Int) :
    (jsTrim s.currentText ≠ "" →
      (addText now s).redoHistory = [] ∧ redo (addText now s) = addText now s) ∧
    (env.canvasRef = some canvas → pointerClientX event = .ok px →
      pointerClientY event = .ok py → (∃ item ∈ r.textItems, item.id = id) →
      ∃ t, moveText env r event id s = .ok t ∧ t.redoHistory = [] ∧ redo t = t) := by
  constructor
  · intro hne
    have hre : (addText now s).redoHistory = [] := by simp [addText, hne]
    exact ⟨hre, redo_nil _ hre⟩
  · intro hc hx hy hex
    obtain ⟨j, hj⟩ := find_of_exists r.textItems id hex
    exact ⟨_, moveText_ok env canvas r s event id px py j hc hx hy hj, rfl, redo_nil _ rfl⟩

theorem redo_is_noop_after_mutation_witness :
    (jsTrim (undo (setCurrentText "B" oneItem)).currentText ≠ "" ∧
      (addText 2 (undo (setCurrentText "B" oneItem))).redoHistory = [] ∧
      redo (addText 2 (undo (setCurrentText "B" oneItem)))
        = addText 2 (undo (setCurrentText "B" oneItem))) ∧
    ∃ t, moveText exampleEnv oneItem (mouseAt 10 10) 1 (undo (setCurrentText "B" oneItem))
        = .ok t ∧ t.redoHistory = [] ∧ redo t = t :=
  ⟨⟨by decide,
      (redo_is_noop_after_mutation exampleEnv exampleCanvas oneItem
        (undo (setCurrentText "B" oneItem)) 2 (mouseAt 10 10) 1 10 10).1 (by decide)⟩,
    (redo_is_noop_after_mutation exampleEnv exampleCanvas oneItem
      (undo (setCurrentText "B" oneItem)) 2 (mouseAt 10 10) 1 10 10).2 rfl rfl rfl
      ⟨_, List.mem_singleton.mpr rfl, rfl⟩⟩

/-- C7: when the draft text is empty or consists only of white space,
`addText` changes nothing: the live Document, the undo stack and the redo
stack (indeed the whole state) are as before, so no history entry is pushed. -/
theorem addText_blank_is_noop (now : Nat) (s : Session)
    (h : ∀ c ∈ s.currentText.toList, jsIsWhiteSpace c = true) :
    addText now s = s ∧ (addText now s).textItems = s.textItems ∧
      (addText now s).history = s.history ∧ (addText now s).redoHistory = s.redoHistory := by
  have hs : addText now s = s := by
    unfold addText
    rw [if_pos (jsTrim_blank s.currentText h)]
  rw [hs]
  exact ⟨rfl, rfl, rfl, rfl⟩

theorem addText_blank_is_noop_witness :
    (∀ c ∈ (setCurrentText " \t " oneItem).currentText.toList, jsIsWhiteSpace c = true) ∧
      addText 2 (setCurrentText " \t " oneItem) = setCurrentText " \t " oneItem ∧
      (addText 2 (setCurrentText " \t " oneItem)).textItems
        = (setCurrentText " \t " oneItem).textItems ∧
      (addText 2 (setCurrentText " \t " oneItem)).history
        = (setCurrentText " \t " oneItem).history ∧
      (addText 2 (setCurrentText " \t " oneItem)).redoHistory
        = (setCurrentText " \t " oneItem).redoHistory :=
  ⟨by decide, addText_blank_is_noop 2 (setCurrentText " \t " oneItem) (by decide)⟩

/-- C8: with a non-empty undo stack, `undo` removes the last snapshot from
the undo stack, puts it at the front of the redo stack, and sets the live
Document to the new last snapshot of the undo stack, or to the empty Document
when the undo stack became empty.  In particular `undo` directly after a
single `addText` from the initial state (whatever the draft and the clock)
gives an empty live Document and an empty undo stack. -/
theorem undo_pops_last_snapshot (s : Session) (hne : s.history ≠ []) :
    (undo s).history = s.history.dropLast ∧
      (undo s).redoHistory = s.history.getLast hne :: s.redoHistory ∧
      (s.history.dropLast = [] → (undo s).textItems = []) ∧
      (∀ hd : s.history.dropLast ≠ [],
        (undo s).textItems = s.history.dropLast.getLast hd) ∧
      ∀ (draft : String) (now : Nat),
        (undo (addText now (setCurrentText draft initial))).textItems = [] ∧
        (undo (addText now (setCurrentText draft initial))).history = [] := by
  rcases nil_or_snoc s.history with hnil | ⟨L, b, hL⟩
  · exact absurd hnil hne
  · rw [undo_concat s L b hL]
    have hdl : s.history.dropLast = L := by rw [hL]; simp
    have hgl : s.history.getLast hne = b := by simp [hL]
    refine ⟨hdl.symm, by rw [hgl], ?_, ?_, ?_⟩
    · intro h0
      rw [hdl] at h0
      simp [h0]
    · intro hd
      have hL0 : L ≠ [] := by rw [← hdl]; exact hd
      simp only [hdl]
      rw [List.getLast?_eq_getLast L hL0]
      rfl
    · intro draft now
      simp only [addText, setCurrentText, initial]
      split <;> simp [undo]

theorem undo_pops_last_snapshot_witness :
    oneItem.history ≠ [] ∧ (undo oneItem).history = oneItem.history.dropLast ∧
      (undo oneItem).redoHistory
        = oneItem.history.getLast (by decide) :: oneItem.redoHistory ∧
      (oneItem.history.dropLast = [] → (undo oneItem).textItems = []) ∧
      (∀ hd : oneItem.history.dropLast ≠ [],
        (undo oneItem).textItems = oneItem.history.dropLast.getLast hd) ∧
      ∀ (draft : String) (now : Nat),
        (undo (addText now (setCurrentText draft initial))).textItems = [] ∧
        (undo (addText now (setCurrentText draft initial))).history = [] :=
  ⟨by decide, undo_pops_last_snapshot oneItem (by decide)⟩

/-- C10: `moveText` on an existing item (`find` returns `j`, whose measured
width is the `textWidth`) stores, in every item with that id,
`x = max(0, min(pointerX - canvasOffsetLeft, canvasWidth - textWidth))` and
`y = max(0, min(pointerY - canvasOffsetTop, canvasHeight - fontSize))`, and
leaves the other items as they are; in particular, when
`canvasWidth - textWidth` is negative the stored `x` is 0 whatever the
pointer position. -/
theorem moveText_stores_clamp (env : Env) (canvas : Canvas) (r s : Session)
    (event : PointerEvent) (id : Nat) (px py : Int) (j : TextItem)
    (hc : env.canvasRef = some canvas)
    (hx : pointerClientX event = .ok px) (hy : pointerClientY event = .ok py)
    (hj : r.textItems.find? (fun item => item.id == id) = some j) :
    ∃ t, moveText env r event id s = .ok t ∧
      t.textItems = r.textItems.map (fun item =>
        if item.id = id then
          { item with
            x := max 0 (min (px - canvas.offsetLeft)
              (canvas.clientWidth - renderedWidth env j))
            y := max 0 (min (py - canvas.offsetTop)
              (canvas.clientHeight - item.fontSize)) }
        else item) ∧
      (canvas.clientWidth - renderedWidth env j < 0 →
        ∀ item ∈ t.textItems, item.id = id → item.x = 0) := by
  refine ⟨_, moveText_ok env canvas r s event id px py j hc hx hy hj, rfl, ?_⟩
  intro hneg item hitem hid
  obtain ⟨a, -, rfl⟩ := List.mem_map.mp hitem
  have ha : a.id = id := by rw [← movedItem_id canvas id _ _ _ a]; exact hid
  simp only [movedItem, if_pos ha]
  omega

theorem moveText_stores_clamp_witness :
    ∃ t, moveText narrowEnv oneItem (mouseAt 30 5) 1 oneItem = .ok t ∧
      t.textItems = oneItem.textItems.map (fun item =>
        if item.id = 1 then
          { item with
            x := max 0 (min (30 - narrowCanvas.offsetLeft) (narrowCanvas.clientWidth - 50))
            y := max 0 (min (5 - narrowCanvas.offsetTop)
              (narrowCanvas.clientHeight - item.fontSize)) }
        else item) ∧
      (narrowCanvas.clientWidth - 50 < 0 →
        ∀ item ∈ t.textItems, item.id = 1 → item.x = 0) :=
  moveText_stores_clamp narrowEnv narrowCanvas oneItem oneItem (mouseAt 30 5) 1 30 5
    { id := 1, text := "A", x := 150, y := 150, fontSize := 16, fontWeight := "normal",
      fontStyle := "normal", textDecoration := "none" }
    rfl rfl rfl rfl

theorem docPlaced_nil (env : Env) (canvas : Canvas) : DocPlaced env canvas [] := by
  intro item h; cases h

theorem docPlaced_append_default (env : Env) (canvas : Canvas) (doc : List TextItem)
    (new : TextItem) (h : DocPlaced env canvas doc) (hx : new.x = 150) (hy : new.y = 150) :
    DocPlaced env canvas (doc ++ [new]) := by
  intro item hitem
  rcases List.mem_append.mp hitem with hd | hn
  · rcases h item hd with hdef | ⟨j, hj, hcl⟩
    · exact Or.inl hdef
    · exact Or.inr ⟨j, by rw [List.find?_append, hj]; rfl, hcl⟩
  · rw [List.mem_singleton.mp hn]
    exact Or.inl ⟨hx, hy⟩

theorem find_map_movedItem (canvas : Canvas) (id : Nat) (newX newY w : Int)
    (doc : List TextItem) (k : Nat) :
    (doc.map (movedItem canvas id newX newY w)).find? (fun i => i.id == k)
      = (doc.find? (fun i => i.id == k)).map (movedItem canvas id newX newY w) := by
  rw [List.find?_map]
  congr 2
  funext i
  simp [Function.comp, movedItem_id]

theorem docPlaced_moved (env : Env) (canvas : Canvas) (doc : List TextItem) (id : Nat)
    (newX newY : Int) (j : TextItem) (h : DocPlaced env canvas doc)
    (hj : doc.find? (fun item => item.id == id) = some j) :
    DocPlaced env canvas (doc.map (movedItem canvas id newX newY (renderedWidth env j))) := by
  intro item hitem
  obtain ⟨a, ha, rfl⟩ := List.mem_map.mp hitem
  by_cases hid : a.id = id
  · refine Or.inr ⟨movedItem canvas id newX newY (renderedWidth env j) j, ?_, ?_⟩
    · rw [find_map_movedItem, movedItem_id, hid, hj]; rfl
    · rw [renderedWidth_movedItem]
      exact movedItem_clamped canvas id newX newY _ a hid
  · have hsame : movedItem canvas id newX newY (renderedWidth env j) a = a := by
      simp [movedItem, hid]
    rw [hsame]
    rcases h a ha with hdef | ⟨j0, hj0, hcl⟩
    · exact Or.inl hdef
    · refine Or.inr ⟨movedItem canvas id newX newY (renderedWidth env j) j0, ?_, ?_⟩
      · rw [find_map_movedItem, hj0]; rfl
      · rw [renderedWidth_movedItem]; exact hcl

theorem allPlaced_moveText (env : Env) (canvas : Canvas) (hc : env.canvasRef = some canvas)
    (r s t : Session) (event : PointerEvent) (id : Nat) (hr : AllPlaced env canvas r)
    (h : moveText env r event id s = .ok t) : AllPlaced env canvas t := by
  obtain ⟨canvas1, px, py, j, hc1, -, -, hj, rfl⟩ := moveText_inv env r s t event id h
  have hcc : canvas1 = canvas := by rw [hc] at hc1; exact (Option.some.inj hc1).symm
  subst hcc
  have hdoc := docPlaced_moved env canvas1 r.textItems id (px - canvas1.offsetLeft)
    (py - canvas1.offsetTop) j hr.1 hj
  refine ⟨hdoc, ?_, ?_⟩
  · intro d hd
    rcases List.mem_append.mp hd with h1 | h1
    · exact hr.2.1 d h1
    · rw [List.mem_singleton.mp h1]; exact hdoc
  · intro d hd; cases hd

theorem allPlaced_deliver (env : Env) (canvas : Canvas) (hc : env.canvasRef = some canvas)
    (r s : Session) (event : PointerEvent) (id : Nat) (hr : AllPlaced env canvas r)
    (hs : AllPlaced env canvas s) :
    AllPlaced env canvas (deliver (moveText env r event id) s) := by
  unfold deliver
  cases hm : moveText env r event id s with
  | error e => exact hs
  | ok t => exact allPlaced_moveText env canvas hc r s t event id hr hm

theorem allPlaced_drag (env : Env) (canvas : Canvas) (hc : env.canvasRef = some canvas)
    (r : Session) (id : Nat) (down : PointerEvent) (moves : List PointerEvent) (s : Session)
    (hr : AllPlaced env canvas r) (hs : AllPlaced env canvas s) :
    AllPlaced env canvas
      (moves.foldl (fun st e => deliver (handleMouseDown env r id down e) st) s) := by
  induction moves generalizing s with
  | nil => exact hs
  | cons e moves ih =>
    rw [List.foldl_cons]
    apply ih
    rw [handleMouseDown_eq]
    exact allPlaced_deliver env canvas hc r s e id hr hs

theorem allPlaced_step (env : Env) (canvas : Canvas) (hc : env.canvasRef = some canvas)
    (s : Session) (a : Action) (h : AllPlaced env canvas s) :
    AllPlaced env canvas (step env s a) := by
  cases a with
  | setCurrentText value => exact h
  | addText now =>
    simp only [step, addText]
    split
    · exact h
    · have hdoc := docPlaced_append_default env canvas s.textItems
        { id := now, text := s.currentText, x := 150, y := 150,
          fontSize := s.currentFontSize,
          fontWeight := if s.isBold then "bold" else "normal",
          fontStyle := if s.isItalic then "italic" else "normal",
          textDecoration := if s.isUnderline then "underline" else "none" } h.1 rfl rfl
      refine ⟨hdoc, ?_, ?_⟩
      · intro d hd
        rcases List.mem_append.mp hd with h1 | h1
        · exact h.2.1 d h1
        · rw [List.mem_singleton.mp h1]; exact hdoc
      · intro d hd; cases hd
  | moveText event id => exact allPlaced_deliver env canvas hc s s event id h h
  | drag id down moves => exact allPlaced_drag env canvas hc s id down moves s h h
  | undo =>
    simp only [step]
    rcases nil_or_snoc s.history with hnil | ⟨L, b, hL⟩
    · rw [undo_nil s hnil]; exact h
    · rw [undo_concat s L b hL]
      have hL1 : ∀ d ∈ L, DocPlaced env canvas d := fun d hd =>
        h.2.1 d (by rw [hL]; exact List.mem_append_left _ hd)
      have hb : DocPlaced env canvas b := h.2.1 b (by rw [hL]; simp)
      refine ⟨?_, hL1, ?_⟩
      · rcases nil_or_snoc L with h0 | ⟨L1, b1, h1⟩
        · simp only [h0, List.getLast?_nil, Option.getD_none]
          exact docPlaced_nil env canvas
        · have hlast : (L1 ++ [b1]).getLast?.getD [] = b1 := by simp
          rw [h1, hlast]
          exact hL1 b1 (by rw [h1]; simp)
      · intro d hd
        rcases List.mem_cons.mp hd with h1 | h1
        · rw [h1]; exact hb
        · exact h.2.2 d h1
  | redo =>
    simp only [step]
    cases hR : s.redoHistory with
    | nil => rw [redo_nil s hR]; exact h
    | cons b R =>
      rw [redo_cons s b R hR]
      have hb : DocPlaced env canvas b := h.2.2 b (by rw [hR]; simp)
      refine ⟨hb, ?_, ?_⟩
      · intro d hd
        rcases List.mem_append.mp hd with h1 | h1
        · exact h.2.1 d h1
        · rw [List.mem_singleton.mp h1]; exact hb
      · intro d hd
        exact h.2.2 d (by rw [hR]; exact List.mem_cons_of_mem _ hd)
  | toggleBold => exact h
  | toggleItalic => exact h
  | toggleUnderline => exact h
  | increaseFontSize => exact h
  | decreaseFontSize => exact h

theorem allPlaced_run (env : Env) (canvas : Canvas) (hc : env.canvasRef = some canvas)
    (actions : List Action) (s : Session) (h : AllPlaced env canvas s) :
    AllPlaced env canvas (run env actions s) := by
  induction actions generalizing s with
  | nil => exact h
  | cons a actions ih => exact ih (step env s a) (allPlaced_step env canvas hc s a h)

theorem allPlaced_initial (env : Env) (canvas : Canvas) : AllPlaced env canvas initial := by
  refine ⟨docPlaced_nil env canvas, ?_, ?_⟩
  · intro d hd; cases hd
  · intro d hd; cases hd

/-- C9 as stated fails: on a canvas 40 wide and 10 high, typing "A" and
pressing "Add text" stores the item at `(150, 150)`, outside
`0 <= x <= 40 - 50` and `0 <= y <= 10 - 16`. -/
theorem addText_stores_out_of_range :
    ¬ ∀ item ∈ (run narrowEnv [.setCurrentText "A", .addText 1] initial).textItems,
        WithinCanvas narrowCanvas (renderedWidth narrowEnv item) item := by
  decide

/-- C9, amended: in every state reachable from the initial state, for a
fixed canvas and text measurement, every item of the live Document has
`0 <= x` and `0 <= y`, and it either sits at the default `(150, 150)` where
`addText` put it, or satisfies `x <= max(0, canvasWidth - textWidth)` and
`y <= max(0, canvasHeight - fontSize)`, where `textWidth` is the width
measured for the item `find` returns for its id. -/
theorem reachable_items_placed (env : Env) (canvas : Canvas) (s : Session)
    (hc : env.canvasRef = some canvas) (hr : Reachable env s) :
    ∀ item ∈ s.textItems, 0 ≤ item.x ∧ 0 ≤ item.y ∧ Placed env canvas s.textItems item := by
  obtain ⟨actions, rfl⟩ := hr
  have hall := allPlaced_run env canvas hc actions initial (allPlaced_initial env canvas)
  intro item hitem
  have hp := hall.1 item hitem
  refine ⟨?_, ?_, hp⟩
  · rcases hp with ⟨hx, -⟩ | ⟨j, -, hcl⟩
    · omega
    · exact hcl.1
  · rcases hp with ⟨-, hy⟩ | ⟨j, -, hcl⟩
    · omega
    · exact hcl.2.2.1

theorem reachable_items_placed_witness :
    exampleEnv.canvasRef = some exampleCanvas ∧
      Reachable exampleEnv (run exampleEnv
        [.setCurrentText "A", .addText 1, .moveText (mouseAt 1000 1000) 1,
          .setCurrentText "B", .addText 2] initial) ∧
      ∀ item ∈ (run exampleEnv
        [.setCurrentText "A", .addText 1, .moveText (mouseAt 1000 1000) 1,
          .setCurrentText "B", .addText 2] initial).textItems,
        0 ≤ item.x ∧ 0 ≤ item.y ∧ Placed exampleEnv exampleCanvas (run exampleEnv
          [.setCurrentText "A", .addText 1, .moveText (mouseAt 1000 1000) 1,
            .setCurrentText "B", .addText 2] initial).textItems item :=
  ⟨rfl, ⟨_, rfl⟩, reachable_items_placed exampleEnv exampleCanvas _ rfl ⟨_, rfl⟩⟩

theorem addText_nonblank (now : Nat) (s : Session) (h : jsTrim s.currentText ≠ "") :
    addText now s =
      { s with
        textItems := s.textItems ++ [newTextOf now s]
        history := s.history ++ [s.textItems ++ [newTextOf now s]]
        redoHistory := []
        currentText := "" } := by
  unfold addText
  rw [if_neg h]
  rfl

theorem addText_textItems (now : Nat) (s : Session) (h : jsTrim s.currentText ≠ "") :
    (addText now s).textItems = s.textItems ++ [newTextOf now s] := by
  rw [addText_nonblank now s h]

/-- Two successive adds with non-blank drafts append their two items, in
order, at `(150, 150)`; the ids are the two clock readings, so they differ
when the readings differ. -/
theorem addText_twice (now1 now2 : Nat) (draft2 : String) (s : Session)
    (h1 : jsTrim s.currentText ≠ "") (h2 : jsTrim draft2 ≠ "") :
    ∃ item1 item2,
      (addText now2 (setCurrentText draft2 (addText now1 s))).textItems
        = s.textItems ++ [item1, item2] ∧
      item1.text = s.currentText ∧ item2.text = draft2 ∧
      item1.x = 150 ∧ item1.y = 150 ∧ item2.x = 150 ∧ item2.y = 150 ∧
      item1.id = now1 ∧ item2.id = now2 := by
  refine ⟨newTextOf now1 s, newTextOf now2 (setCurrentText draft2 (addText now1 s)), ?_,
    rfl, rfl, rfl, rfl, rfl, rfl, rfl, rfl⟩
  rw [addText_nonblank now2 _ h2, addText_nonblank now1 s h1]
  simp [setCurrentText]

/-- C11: two successive successful adds need not give distinct ids.  From the
initial state, "Hello" added and then "World" added while `Date.now()` still
returns the same millisecond (1000) give a Document of two items, in that
order, both at `(150, 150)`, and both with id 1000. -/
theorem addText_same_millisecond_same_id :
    (run exampleEnv [.setCurrentText "Hello", .addText 1000, .setCurrentText "World",
        .addText 1000] initial).textItems.map (fun item => (item.id, item.text, item.x, item.y))
      = [(1000, "Hello", 150, 150), (1000, "World", 150, 150)] := by
  decide

/-- C12: an item added by `addText` carries the font size and the style flags
of the state in which it is added (bold active gives `fontWeight` "bold",
so toggling bold on and then adding gives a bold item), and `toggleBold`,
`toggleItalic`, `toggleUnderline`, `increaseFontSize` and `decreaseFontSize`
leave the live Document, the undo stack and the redo stack of any state `u`
unchanged, so a later toggle does not alter the items already added. -/
theorem addText_carries_active_style (now : Nat) (s u : Session)
    (h : jsTrim s.currentText ≠ "") :
    (addText now s).textItems = s.textItems ++
        [{ id := now, text := s.currentText, x := 150, y := 150,
           fontSize := s.currentFontSize,
           fontWeight := if s.isBold then "bold" else "normal",
           fontStyle := if s.isItalic then "italic" else "normal",
           textDecoration := if s.isUnderline then "underline" else "none" }] ∧
      (s.isBold = true → ∀ item, (addText now s).textItems.getLast? = some item →
        item.fontWeight = "bold") ∧
      (s.isBold = false → ∀ item, (addText now (toggleBold s)).textItems.getLast? = some item →
        item.fontWeight = "bold") ∧
      (∀ f ∈ [toggleBold, toggleItalic, toggleUnderline, increaseFontSize, decreaseFontSize],
        (f u).textItems = u.textItems ∧ (f u).history = u.history ∧
          (f u).redoHistory = u.redoHistory) ∧
      (toggleBold (addText now s)).textItems = (addText now s).textItems := by
  refine ⟨?_, ?_, ?_, ?_, rfl⟩
  · rw [addText_textItems now s h]; rfl
  · intro hb item hitem
    rw [addText_textItems now s h, List.getLast?_concat] at hitem
    rw [← Option.some.inj hitem]
    simp [newTextOf, hb]
  · intro hb item hitem
    have ht : jsTrim (toggleBold s).currentText ≠ "" := h
    rw [addText_textItems now _ ht, List.getLast?_concat] at hitem
    rw [← Option.some.inj hitem]
    simp [newTextOf, toggleBold, hb]
  · intro f hf
    simp only [List.mem_cons, List.mem_singleton, List.mem_nil_iff, or_false] at hf
    rcases hf with rfl | rfl | rfl | rfl | rfl <;> exact ⟨rfl, rfl, rfl⟩

theorem addText_carries_active_style_witness :
    jsTrim (setCurrentText "B" oneItem).currentText ≠ "" ∧
      (addText 2 (setCurrentText "B" oneItem)).textItems
        = (setCurrentText "B" oneItem).textItems ++
          [{ id := 2, text := "B", x := 150, y := 150, fontSize := 16,
             fontWeight := "normal", fontStyle := "normal", textDecoration := "none" }] :=
  ⟨by decide,
    (addText_carries_active_style 2 (setCurrentText "B" oneItem) oneItem (by decide)).1⟩

theorem docFontPositive_moved (canvas : Canvas) (id : Nat) (newX newY w : Int)
    (doc : List TextItem) (h : DocFontPositive doc) :
    DocFontPositive (doc.map (movedItem canvas id newX newY w)) := by
  intro item hitem
  obtain ⟨a, ha, rfl⟩ := List.mem_map.mp hitem
  rw [movedItem_fontSize]
  exact h a ha

theorem fontSizesPositive_deliver (env : Env) (r s : Session) (event : PointerEvent) (id : Nat)
    (hr : FontSizesPositive r) (hs : FontSizesPositive s) :
    FontSizesPositive (deliver (moveText env r event id) s) := by
  unfold deliver
  cases hm : moveText env r event id s with
  | error e => exact hs
  | ok t =>
    obtain ⟨canvas, px, py, j, -, -, -, -, rfl⟩ := moveText_inv env r s t event id hm
    have hdoc := docFontPositive_moved canvas id (px - canvas.offsetLeft)
      (py - canvas.offsetTop) (renderedWidth env j) r.textItems hr.2.1
    refine ⟨hs.1, hdoc, ?_, ?_⟩
    · intro d hd
      rcases List.mem_append.mp hd with h1 | h1
      · exact hr.2.2.1 d h1
      · rw [List.mem_singleton.mp h1]; exact hdoc
    · intro d hd; cases hd

theorem fontSizesPositive_drag (env : Env) (r : Session) (id : Nat) (down : PointerEvent)
    (moves : List PointerEvent) (s : Session) (hr : FontSizesPositive r)
    (hs : FontSizesPositive s) :
    FontSizesPositive
      (moves.foldl (fun st e => deliver (handleMouseDown env r id down e) st) s) := by
  induction moves generalizing s with
  | nil => exact hs
  | cons e moves ih =>
    rw [List.foldl_cons]
    apply ih
    rw [handleMouseDown_eq]
    exact fontSizesPositive_deliver env r s e id hr hs

theorem fontSizesPositive_step (env : Env) (s : Session) (a : Action)
    (h : FontSizesPositive s) : FontSizesPositive (step env s a) := by
  cases a with
  | setCurrentText value => exact h
  | addText now =>
    simp only [step]
    by_cases hb : jsTrim s.currentText = ""
    · simp only [addText, if_pos hb]; exact h
    · rw [addText_nonblank now s hb]
      have hdoc : DocFontPositive (s.textItems ++ [newTextOf now s]) := by
        intro item hitem
        rcases List.mem_append.mp hitem with h1 | h1
        · exact h.2.1 item h1
        · rw [List.mem_singleton.mp h1]; exact h.1
      refine ⟨h.1, hdoc, ?_, ?_⟩
      · intro d hd
        rcases List.mem_append.mp hd with h1 | h1
        · exact h.2.2.1 d h1
        · rw [List.mem_singleton.mp h1]; exact hdoc
      · intro d hd; cases hd
  | moveText event id => exact fontSizesPositive_deliver env s s event id h h
  | drag id down moves => exact fontSizesPositive_drag env s id down moves s h h
  | undo =>
    simp only [step]
    rcases nil_or_snoc s.history with hnil | ⟨L, b, hL⟩
    · rw [undo_nil s hnil]; exact h
    · rw [undo_concat s L b hL]
      have hL1 : ∀ d ∈ L, DocFontPositive d := fun d hd =>
        h.2.2.1 d (by rw [hL]; exact List.mem_append_left _ hd)
      have hb : DocFontPositive b := h.2.2.1 b (by rw [hL]; simp)
      refine ⟨h.1, ?_, hL1, ?_⟩
      · rcases nil_or_snoc L with h0 | ⟨L1, b1, h1⟩
        · simp only [h0, List.getLast?_nil, Option.getD_none]
          intro item hitem; cases hitem
        · have hlast : (L1 ++ [b1]).getLast?.getD [] = b1 := by simp
          rw [h1, hlast]
          exact hL1 b1 (by rw [h1]; simp)
      · intro d hd
        rcases List.mem_cons.mp hd with h1 | h1
        · rw [h1]; exact hb
        · exact h.2.2.2 d h1
  | redo =>
    simp only [step]
    cases hR : s.redoHistory with
    | nil => rw [redo_nil s hR]; exact h
    | cons b R =>
      rw [redo_cons s b R hR]
      have hb : DocFontPositive b := h.2.2.2 b (by rw [hR]; simp)
      refine ⟨h.1, hb, ?_, ?_⟩
      · intro d hd
        rcases List.mem_append.mp hd with h1 | h1
        · exact h.2.2.1 d h1
        · rw [List.mem_singleton.mp h1]; exact hb
      · intro d hd
        exact h.2.2.2 d (by rw [hR]; exact List.mem_cons_of_mem _ hd)
  | toggleBold => exact h
  | toggleItalic => exact h
  | toggleUnderline => exact h
  | increaseFontSize =>
    refine ⟨?_, h.2⟩
    have := h.1
    simp only [step, increaseFontSize]
    omega
  | decreaseFontSize =>
    refine ⟨?_, h.2⟩
    simp only [step, decreaseFontSize]
    omega

theorem fontSizesPositive_run (env : Env) (actions : List Action) (s : Session)
    (h : FontSizesPositive s) : FontSizesPositive (run env actions s) := by
  induction actions generalizing s with
  | nil => exact h
  | cons a actions ih => exact ih (step env s a) (fontSizesPositive_step env s a h)

theorem fontSizesPositive_initial : FontSizesPositive initial := by
  refine ⟨by decide, ?_, ?_, ?_⟩
  · intro item hitem; cases hitem
  · intro d hd; cases hd
  · intro d hd; cases hd

/-- C13: `decreaseFontSize` maps the font size `n` to `max(1, n - 1)` and
`increaseFontSize` maps it to `n + 1`, with no upper limit; in every state
reachable from the initial state (font size 16), in particular after any
sequence of increase and decrease actions, the active font size is at least
1, and every item of the live Document has an integer `fontSize` of at
least 1. -/
theorem fontSize_floor_one (env : Env) (s u : Session) (hr : Reachable env s) :
    (decreaseFontSize u).currentFontSize = max 1 (u.currentFontSize - 1) ∧
      (increaseFontSize u).currentFontSize = u.currentFontSize + 1 ∧
      1 ≤ s.currentFontSize ∧ ∀ item ∈ s.textItems, 1 ≤ item.fontSize := by
  obtain ⟨actions, rfl⟩ := hr
  have h := fontSizesPositive_run env actions initial fontSizesPositive_initial
  exact ⟨rfl, rfl, h.1, h.2.1⟩

theorem fontSize_floor_one_witness :
    Reachable exampleEnv (run exampleEnv
        (List.replicate 20 Action.decreaseFontSize ++
          [.setCurrentText "A", .addText 1, .increaseFontSize]) initial) ∧
      (decreaseFontSize initial).currentFontSize = max 1 (initial.currentFontSize - 1) ∧
      (increaseFontSize initial).currentFontSize = initial.currentFontSize + 1 ∧
      1 ≤ (run exampleEnv
        (List.replicate 20 Action.decreaseFontSize ++
          [.setCurrentText "A", .addText 1, .increaseFontSize]) initial).currentFontSize ∧
      ∀ item ∈ (run exampleEnv
        (List.replicate 20 Action.decreaseFontSize ++
          [.setCurrentText "A", .addText 1, .increaseFontSize]) initial).textItems,
        1 ≤ item.fontSize :=
  ⟨⟨_, rfl⟩, fontSize_floor_one exampleEnv _ initial ⟨_, rfl⟩⟩

/-- C14: `undo` on an empty undo stack and `redo` on an empty redo stack
change nothing (live Document, undo stack and redo stack, indeed the whole
state, are as before); `undo` is a no-op only then: with a non-empty undo
stack it changes the state, and with a one-element undo stack it empties the
stack and the live Document and moves the snapshot to the redo stack. -/
theorem undo_redo_noop_on_empty (s : Session) :
    (s.history = [] → undo s = s) ∧ (s.redoHistory = [] → redo s = s) ∧
      (s.history ≠ [] → undo s ≠ s) ∧
      ∀ b, s.history = [b] →
        (undo s).history = [] ∧ (undo s).textItems = [] ∧
          (undo s).redoHistory = b :: s.redoHistory := by
  refine ⟨undo_nil s, redo_nil s, ?_, ?_⟩
  · intro hne heq
    rcases nil_or_snoc s.history with hnil | ⟨L, b, hL⟩
    · exact hne hnil
    · have hlen : (undo s).history.length = s.history.length := by rw [heq]
      rw [undo_concat s L b hL] at hlen
      simp [hL] at hlen
  · intro b hb
    rw [undo_concat s [] b (by simpa using hb)]
    exact ⟨rfl, rfl, rfl⟩

theorem undo_redo_noop_on_empty_witness :
    (initial.history = [] ∧ undo initial = initial) ∧
      (initial.redoHistory = [] ∧ redo initial = initial) ∧
      (oneItem.history ≠ [] ∧ undo oneItem ≠ oneItem) ∧
      (oneItem.history = [oneItem.textItems] ∧ (undo oneItem).history = [] ∧
        (undo oneItem).textItems = [] ∧
        (undo oneItem).redoHistory = oneItem.textItems :: oneItem.redoHistory) :=
  ⟨⟨rfl, (undo_redo_noop_on_empty initial).1 rfl⟩,
    ⟨rfl, (undo_redo_noop_on_empty initial).2.1 rfl⟩,
    ⟨by decide, (undo_redo_noop_on_empty oneItem).2.2.1 (by decide)⟩,
    ⟨rfl, (undo_redo_noop_on_empty oneItem).2.2.2 oneItem.textItems rfl⟩⟩

/-- C15: `undo` and `redo` each preserve the concatenation of the undo stack
followed by the redo stack; they move the boundary between the two stacks by
at most one snapshot (`undo` shortens the undo stack by one when it is not
empty, `redo` lengthens it by one when the redo stack is not empty). -/
theorem undo_redo_preserve_concatenation (s : Session) :
    (undo s).history ++ (undo s).redoHistory = s.history ++ s.redoHistory ∧
      (redo s).history ++ (redo s).redoHistory = s.history ++ s.redoHistory ∧
      (undo s).history.length = s.history.length - 1 ∧
      (redo s).redoHistory.length = s.redoHistory.length - 1 := by
  refine ⟨?_, ?_, ?_, ?_⟩
  · rcases nil_or_snoc s.history with hnil | ⟨L, b, hL⟩
    · rw [undo_nil s hnil]
    · rw [undo_concat s L b hL, hL]; simp
  · cases hR : s.redoHistory with
    | nil => rw [redo_nil s hR, hR]
    | cons b R => rw [redo_cons s b R hR]; simp
  · rcases nil_or_snoc s.history with hnil | ⟨L, b, hL⟩
    · rw [undo_nil s hnil, hnil]; rfl
    · rw [undo_concat s L b hL, hL]; simp
  · cases hR : s.redoHistory with
    | nil => rw [redo_nil s hR, hR]; rfl
    | cons b R => rw [redo_cons s b R hR]; simp

theorem movedItem_sameButPosition (canvas : Canvas) (id : Nat) (newX newY w : Int)
    (item : TextItem) : SameButPosition item (movedItem canvas id newX newY w item) := by
  unfold movedItem SameButPosition
  split <;> exact ⟨rfl, rfl, rfl, rfl, rfl, rfl⟩

theorem movedItem_other (canvas : Canvas) (id : Nat) (newX newY w : Int) (item : TextItem)
    (h : item.id ≠ id) : movedItem canvas id newX newY w item = item := by
  unfold movedItem
  rw [if_neg h]

/-- C16: when `moveText` is called with an id present in the Document (canvas
mounted, event carrying coordinates), the new Document has the same length,
and at every index the new item agrees with the old one in `id`, `text`,
`fontSize`, `fontWeight`, `fontStyle` and `textDecoration`; an item whose id
differs from the given id is unchanged altogether.  So only `x` and `y` of
the items with the given id can change, and the order is kept. -/
theorem moveText_changes_only_position (env : Env) (canvas : Canvas) (r s : Session)
    (event : PointerEvent) (id : Nat) (px py : Int)
    (hc : env.canvasRef = some canvas)
    (hx : pointerClientX event = .ok px) (hy : pointerClientY event = .ok py)
    (hid : ∃ item ∈ r.textItems, item.id = id) :
    ∃ t, moveText env r event id s = .ok t ∧
      t.textItems.length = r.textItems.length ∧
      ∀ (i : Nat) (a : TextItem), r.textItems[i]? = some a →
        ∃ b, t.textItems[i]? = some b ∧ SameButPosition a b ∧ (a.id ≠ id → b = a) := by
  obtain ⟨j, hj⟩ := find_of_exists r.textItems id hid
  refine ⟨_, moveText_ok env canvas r s event id px py j hc hx hy hj, ?_, ?_⟩
  · simp
  · intro i a ha
    refine ⟨movedItem canvas id (px - canvas.offsetLeft) (py - canvas.offsetTop)
      (renderedWidth env j) a, ?_, movedItem_sameButPosition _ _ _ _ _ a,
      movedItem_other _ _ _ _ _ a⟩
    simp [List.getElem?_map, ha]

theorem moveText_changes_only_position_witness :
    ∃ t, moveText exampleEnv oneItem (mouseAt 10 10) 1 oneItem = .ok t ∧
      t.textItems.length = oneItem.textItems.length ∧
      ∀ (i : Nat) (a : TextItem), oneItem.textItems[i]? = some a →
        ∃ b, t.textItems[i]? = some b ∧ SameButPosition a b ∧ (a.id ≠ 1 → b = a) :=
  moveText_changes_only_position exampleEnv exampleCanvas oneItem oneItem (mouseAt 10 10) 1
    10 10 rfl rfl rfl ⟨_, List.mem_singleton.mpr rfl, rfl⟩

/-- C17: in every state reachable from the initial state whose redo stack is
non-empty, `redo` followed by `undo` gives back the state before the `redo`:
the live Document, the undo stack and the redo stack (and with them the whole
state) are as they were. -/
theorem undo_redo_restores_state (env : Env) (s : Session) (hr : Reachable env s)
    (hne : s.redoHistory ≠ []) :
    undo (redo s) = s ∧ (undo (redo s)).textItems = s.textItems ∧
      (undo (redo s)).history = s.history ∧ (undo (redo s)).redoHistory = s.redoHistory := by
  have hl := liveIsLast_of_reachable env s hr
  have key : undo (redo s) = s := by
    cases hR : s.redoHistory with
    | nil => exact absurd hR hne
    | cons b R =>
      rw [redo_cons s b R hR, undo_concat _ s.history b rfl]
      unfold LiveIsLast at hl
      cases s
      simp_all
  rw [key]
  exact ⟨rfl, rfl, rfl, rfl⟩

theorem undo_redo_restores_state_witness :
    Reachable exampleEnv (undo oneItem) ∧ (undo oneItem).redoHistory ≠ [] ∧
      undo (redo (undo oneItem)) = undo oneItem ∧
      (undo (redo (undo oneItem))).textItems = (undo oneItem).textItems ∧
      (undo (redo (undo oneItem))).history = (undo oneItem).history ∧
      (undo (redo (undo oneItem))).redoHistory = (undo oneItem).redoHistory :=
  ⟨⟨[.setCurrentText "A", .addText 1, .undo], rfl⟩, by decide,
    undo_redo_restores_state exampleEnv (undo oneItem)
      ⟨[.setCurrentText "A", .addText 1, .undo], rfl⟩ (by decide)⟩

/-- The listener that `handleMouseDown` registers for an item of the render
it closes over never meets the not-found case: with the canvas mounted and an
event carrying coordinates it returns a new state. -/
theorem handleMouseDown_listener_finds_item (env : Env) (canvas : Canvas) (r s : Session)
    (down event : PointerEvent) (item : TextItem) (px py : Int)
    (hitem : item ∈ r.textItems) (hc : env.canvasRef = some canvas)
    (hx : pointerClientX event = .ok px) (hy : pointerClientY event = .ok py) :
    ∃ t, handleMouseDown env r item.id down event s = .ok t := by
  obtain ⟨j, hj⟩ := find_of_exists r.textItems item.id ⟨item, hitem, rfl⟩
  rw [handleMouseDown_eq]
  exact ⟨_, moveText_ok env canvas r s event item.id px py j hc hx hy hj⟩

/-- C3, amended: `moveText` called with an id that matches no item of the
Document it reads raises a `TypeError` (in `calculateTextWidth`, on the
`undefined` result of `find`) before any setter is called, so the live
Document, the undo stack and the redo stack, indeed the whole state, are
left unchanged. -/
theorem moveText_unknown_id_keeps_state (env : Env) (r s : Session) (event : PointerEvent)
    (id : Nat) (h : ∀ item ∈ r.textItems, item.id ≠ id) :
    moveText env r event id s = .error .typeError ∧
      deliver (moveText env r event id) s = s ∧
      (deliver (moveText env r event id) s).textItems = s.textItems ∧
      (deliver (moveText env r event id) s).history = s.history ∧
      (deliver (moveText env r event id) s).redoHistory = s.redoHistory := by
  have herr := moveText_absent env r s event id h
  have hs : deliver (moveText env r event id) s = s := by
    unfold deliver
    rw [herr]
  rw [hs]
  exact ⟨herr, rfl, rfl, rfl, rfl⟩

theorem moveText_unknown_id_keeps_state_witness :
    (∀ item ∈ oneItem.textItems, item.id ≠ 2) ∧
      moveText exampleEnv oneItem (mouseAt 10 10) 2 oneItem = .error .typeError ∧
      deliver (moveText exampleEnv oneItem (mouseAt 10 10) 2) oneItem = oneItem ∧
      (deliver (moveText exampleEnv oneItem (mouseAt 10 10) 2) oneItem).textItems
        = oneItem.textItems ∧
      (deliver (moveText exampleEnv oneItem (mouseAt 10 10) 2) oneItem).history
        = oneItem.history ∧
      (deliver (moveText exampleEnv oneItem (mouseAt 10 10) 2) oneItem).redoHistory
        = oneItem.redoHistory :=
  ⟨by decide,
    moveText_unknown_id_keeps_state exampleEnv oneItem oneItem (mouseAt 10 10) 2 (by decide)⟩

end WhiteBoard
